import Mathlib

/-! Shallow embedding of the property-set synchronization core of
`ifc_sync_simple.py` (class `SimpleIFCSync`): the flattener and row builder
of `extract_ifc_to_excel`, the per-element annotation step of
`create_analysis_ifc`, the general sync engine `sync_excel_to_ifc`, and the
fast-path updater `update_ifc_from_dataframe`.

Property values are scalars (string / integer / boolean) as stored in IFC
simple properties.  `Option Value` models either a property value that may be
Python `None`, or a table cell that may be missing/NaN (`pd.notna` is false
for both `None` and NaN, and a pandas cell built from an absent dict key or a
`None` dict value is NaN, so one `none` covers them). -/

inductive Value where
  | vStr (s : String)
  | vInt (n : Int)
  | vBool (b : Bool)
deriving DecidableEq, Repr

/-- Python `str(value)` on a scalar value. -/
def Value.toStr : Value → String
  | .vStr s => s
  | .vInt n => toString n
  | .vBool b => if b then "True" else "False"

/-- Python truthiness of a scalar value. -/
def Value.truthy : Value → Bool
  | .vStr s => !(s == "")
  | .vInt n => !(n == 0)
  | .vBool b => b

/-- Python truthiness of an optional value (`None` is falsy). -/
def pyTruthy : Option Value → Bool
  | none => false
  | some v => v.truthy

/-- Python `str` on an optional value. -/
def pyStr : Option Value → String
  | none => "None"
  | some v => v.toStr

abbrev Props := List (String × Option Value)

/-- An `IfcPropertySet`: a named bag of properties. -/
structure Pset where
  name  : String
  props : Props
deriving DecidableEq, Repr

/-- A spatial or group entity reached through containment or assignment
relations (`IfcBuildingStorey`, `IfcSpace`, `IfcZone`, ...).  In the IFC
schema every such entity carries a `Name` attribute (possibly null), so the
source's `hasattr(x, "Name")` test is always true and its `LongName`
fallback branch is dead; only the `Name` value is kept. -/
structure SpatialRef where
  kind  : String
  sname : Option String
deriving DecidableEq, Repr

/-- One `IfcProduct`.  `ownPsets` are the property sets attached to the
occurrence itself through `IfcRelDefinesByProperties` (what
`element.IsDefinedBy` exposes, in relation order); `typePsets` are property
sets inherited from the element's type, which
`ifcopenshell.util.element.get_psets` also reports but which have no
`IfcRelDefinesByProperties` relation on the occurrence.  `containedIn` lists
the `RelatingStructure` targets of the element's
`IfcRelContainedInSpatialStructure` relations, `groups` the `RelatingGroup`
targets of its `IfcRelAssignsToGroup` relations. -/
structure Element where
  globalId      : String
  tag           : Option String
  entityKind    : String
  ename         : Option String
  etype         : Option String
  materialNames : List String
  containedIn   : List SpatialRef
  groups        : List SpatialRef
  ownPsets      : List Pset
  typePsets     : List Pset
deriving DecidableEq, Repr

abbrev PsetMap := List (String × Props)

/-- Insert one property set into the dict `ifcopenshell.util.element.get_psets`
builds (`psets[pset.Name] = props`): an existing key keeps its position and
gets the new props, a fresh key is appended. -/
def dictInsertPset (acc : PsetMap) (p : Pset) : PsetMap :=
  if p.name ∈ acc.map Prod.fst then
    acc.map (fun q => if q.1 = p.name then (q.1, p.props) else q)
  else
    acc ++ [(p.name, p.props)]

def buildPsetDict (acc : PsetMap) : List Pset → PsetMap
  | [] => acc
  | p :: ps => buildPsetDict (dictInsertPset acc p) ps

/-- `ifcopenshell.util.element.get_psets(element)`: type-inherited property
sets first, then the occurrence's own, an occurrence set replacing a
type set of the same name. -/
def getPsets (e : Element) : PsetMap :=
  buildPsetDict [] (e.typePsets ++ e.ownPsets)

/-- The keys of `get_psets(element)` (what `name in psets` tests). -/
def psetNames (e : Element) : List String :=
  (getPsets e).map Prod.fst

/-- Python `s.upper()` (the names matched against are ASCII). -/
def strUpper (s : String) : String :=
  ⟨s.data.map Char.toUpper⟩

def charsLead : List Char → List Char → Bool
  | [], _ => true
  | _ :: _, [] => false
  | a :: as, b :: bs => a == b && charsLead as bs

def charsInside : List Char → List Char → Bool
  | needle, [] => charsLead needle []
  | needle, h :: t => charsLead needle (h :: t) || charsInside needle t

/-- Python `needle in hay` on strings. -/
def containsSub (hay needle : String) : Bool :=
  charsInside needle.data hay.data

/-- Python `col.startswith("_")`: the first character is an underscore. -/
def underscoreLead (s : String) : Bool :=
  match s.data with
  | [] => false
  | c :: _ => c == '_'

/-- Property-name fragments `get_bim_id` scans for. -/
def idFragments : List String :=
  ["ELEMENTID", "REVITID", "BATID"]

def bimIdScanProps : Props → Option String
  | [] => none
  | (pn, v) :: rest =>
    if (idFragments.any (fun f => containsSub (strUpper pn) f)) && pyTruthy v then
      some (pyStr v)
    else
      bimIdScanProps rest

def bimIdScan : PsetMap → Option String
  | [] => none
  | (_, props) :: rest =>
    match bimIdScanProps props with
    | some s => some s
    | none => bimIdScan rest

/-- `SimpleIFCSync.get_bim_id`: the element's `Tag` if present and truthy,
else the first truthy property whose uppercased name contains an id fragment,
else `None`. -/
def get_bim_id (e : Element) : Option String :=
  match e.tag with
  | some t => if t == "" then bimIdScan (getPsets e) else some t
  | none => bimIdScan (getPsets e)

/-- The flattening loop of `extract_ifc_to_excel` (its lines over
`get_psets`): each property becomes the pair
`("{pset_name}.{prop_name}", value if value is not None else "")`,
in pset-dict order. -/
def flattenPairs : PsetMap → List (String × Value)
  | [] => []
  | (pn, props) :: rest =>
    props.map (fun pv => (pn ++ "." ++ pv.1, pv.2.getD (Value.vStr ""))) ++
      flattenPairs rest

def flatten (e : Element) : List (String × Value) :=
  flattenPairs (getPsets e)

/-- Lookup in a Python dict built by writing the listed pairs left to right:
the last write to a key wins. -/
def dictLookupV (l : List (String × Value)) (k : String) : Option Value :=
  (l.reverse.find? (fun kv => kv.1 == k)).map (fun kv => kv.2)

/-- Spatial container kinds excluded from the Floor/Zone containment scans. -/
def spatialElements : List String :=
  ["IfcSite", "IfcBuilding", "IfcBuildingStorey", "IfcSpace", "IfcZone"]

/-- The `Material` cell: material names joined with `" | "`; `None` when the
element has no named materials. -/
def materialOf (e : Element) : Option String :=
  match e.materialNames with
  | [] => none
  | ms => some (String.intercalate " | " ms)

/-- The `Floor` cell: skip spatial containers, else the name of the first
containing `IfcBuildingStorey`. -/
def floorOf (e : Element) : Option String :=
  if spatialElements.contains e.entityKind then none
  else
    match e.containedIn.find? (fun s => s.kind == "IfcBuildingStorey") with
    | some s => s.sname
    | none => none

/-- Python falsiness of an optional string (`None` or `""`). -/
def pyFalsyStr : Option String → Bool
  | none => true
  | some s => s == ""

/-- The `Zone` cell: the first `IfcZone` group's name; when that is falsy and
the element is not itself a spatial container, fall back to the first
containing `IfcSpace`. -/
def zoneOf (e : Element) : Option String :=
  let z1 : Option String :=
    match e.groups.find? (fun g => g.kind == "IfcZone") with
    | some g => g.sname
    | none => none
  if pyFalsyStr z1 && !(spatialElements.contains e.entityKind) then
    match e.containedIn.find? (fun s => s.kind == "IfcSpace") with
    | some s => s.sname
    | none => z1
  else z1

/-- The row dict `extract_ifc_to_excel` builds for one element, in insertion
order: identity and derived columns, then every flattened property column.
A `none` cell is a `None` dict value, which pandas turns into NaN. -/
def buildRowDict (e : Element) : List (String × Option Value) :=
  [("GUID", some (Value.vStr e.globalId)),
   ("BIM_ID", (get_bim_id e).map Value.vStr),
   ("Entity", some (Value.vStr e.entityKind)),
   ("Name", e.ename.map Value.vStr),
   ("Type", e.etype.map Value.vStr),
   ("Material", (materialOf e).map Value.vStr),
   ("Floor", (floorOf e).map Value.vStr),
   ("Zone", (zoneOf e).map Value.vStr)] ++
    (flatten e).map (fun kv => (kv.1, some kv.2))

/-- Fold one row's keys into the running column list, keeping first-appearance
order (how `pd.DataFrame(list_of_dicts)` forms its columns). -/
def addCols (acc : List String) : List (String × Option Value) → List String
  | [] => acc
  | kv :: rest => addCols (if kv.1 ∈ acc then acc else acc ++ [kv.1]) rest

def dfColumns (acc : List String) : List (List (String × Option Value)) → List String
  | [] => acc
  | r :: rs => dfColumns (addCols acc r) rs

/-- Cell access on a row dict, with pandas semantics: an absent key is NaN,
a present key yields the dict's value for it (last write wins). -/
def dictGet (row : List (String × Option Value)) (k : String) : Option Value :=
  match row.reverse.find? (fun kv => kv.1 == k) with
  | some kv => kv.2
  | none => none

/-- The table `extract_ifc_to_excel` returns: the DataFrame's column list and
one dict per element (a cell is read with `dictGet`, so every row ranges over
the same column set, absent entries reading as NaN). -/
structure Table where
  cols : List String
  rows : List (List (String × Option Value))
deriving DecidableEq, Repr

/-- `SimpleIFCSync.extract_ifc_to_excel`: one row dict per product, columns
the first-appearance union of row keys, then the two metadata columns
`_source_file` and `_extract_date` appended to every row. -/
def extract_ifc_to_excel (es : List Element) (srcFile extractDate : String) : Table :=
  let dicts := es.map buildRowDict
  let cols := dfColumns [] dicts
  { cols := cols ++ ["_source_file", "_extract_date"],
    rows := dicts.map (fun r =>
      r ++ [("_source_file", some (Value.vStr srcFile)),
            ("_extract_date", some (Value.vStr extractDate))]) }

/-- `pset.edit_pset` on one property: update the first property of that name
in place, else append it (the merge never touches sibling properties). -/
def setProp : Props → String → Option Value → Props
  | [], k, v => [(k, v)]
  | q :: rest, k, v =>
    if q.1 == k then (k, v) :: rest else q :: setProp rest k v

/-- `pset.edit_pset` with a dict of string values, applied in dict order. -/
def editProps (props : Props) (upd : List (String × String)) : Props :=
  upd.foldl (fun ps kv => setProp ps kv.1 (some (Value.vStr kv.2))) props

/-- The value of a named property in a property list (first occurrence). -/
def lookupProp (props : Props) (k : String) : Option (Option Value) :=
  (props.find? (fun q => q.1 == k)).map (fun q => q.2)

/-- The first own property set of a given name (`pset_rels[0]`'s target). -/
def firstOwn (e : Element) (nm : String) : Option Pset :=
  e.ownPsets.find? (fun p => p.name == nm)

/-- Edit the first own property set of the given name (the source takes
`pset_rels[0]`); no set of that name means no write. -/
def editPsetFirst : List Pset → String → List (String × String) → List Pset
  | [], _, _ => []
  | p :: rest, nm, upd =>
    if p.name == nm then { p with props := editProps p.props upd } :: rest
    else p :: editPsetFirst rest nm upd

/-- One guarded property write of `sync_excel_to_ifc`: if the set name is in
`get_psets`, edit the first matching own `IfcRelDefinesByProperties` target
when one exists (and do nothing when the set is only type-inherited);
otherwise `pset.add_pset` a fresh set on the element and edit the single
property into it. -/
def writeProp (e : Element) (psetName propName valStr : String) : Element :=
  if psetName ∈ psetNames e then
    if ∃ p ∈ e.ownPsets, p.name = psetName then
      { e with ownPsets := editPsetFirst e.ownPsets psetName [(propName, valStr)] }
    else e
  else
    { e with ownPsets :=
        e.ownPsets ++ [{ name := psetName, props := editProps [] [(propName, valStr)] }] }

/-- Python `col.rsplit(".", 1)` on the character list, split at the last dot;
`none` when the string has no dot. -/
def rsplitAux : List Char → Option (List Char × List Char)
  | [] => none
  | c :: rest =>
    match rsplitAux rest with
    | some (pre, suf) => some (c :: pre, suf)
    | none => if c == '.' then some ([], rest) else none

/-- `col.rsplit(".", 1)` as `(set_name, property_name)`; only reached under
the `"." in col` guard, so the no-dot fallback is never used by the sync. -/
def rsplitDot (s : String) : String × String :=
  match rsplitAux s.data with
  | some (pre, suf) => (⟨pre⟩, ⟨suf⟩)
  | none => (s, "")

/-- One column of one row in `sync_excel_to_ifc`: skip unless the column name
contains a dot, the cell is present (`pd.notna`), and the name does not start
with an underscore; else split at the last dot and write the stringified
value. -/
def syncCell (e : Element) (col : String) (cell : Option Value) : Element :=
  match cell with
  | none => e
  | some v =>
    if '.' ∈ col.data ∧ underscoreLead col = false then
      let sp := rsplitDot col
      writeProp e sp.1 sp.2 v.toStr
    else e

/-- One table row: its cells in column order. -/
structure Row where
  cells : List (String × Option Value)
deriving DecidableEq, Repr

/-- `row["GUID"]` as the guid passed to `ifc.by_guid`: a missing column, a
NaN cell or a non-string value makes `by_guid` raise, which the per-row
handler catches. -/
def rowGuid (r : Row) : Option String :=
  match dictGet r.cells "GUID" with
  | some (Value.vStr s) => some s
  | _ => none

/-- The column loop of `sync_excel_to_ifc` over one resolved element;
`get_psets` is re-read before every column, so earlier columns of the same
row are visible to later ones. -/
def applyRow (e : Element) (r : Row) : Element :=
  r.cells.foldl (fun acc kv => syncCell acc kv.1 kv.2) e

/-- The open IFC model: its products. -/
structure Model where
  elements : List Element
deriving DecidableEq, Repr

/-- `ifc.by_guid`: the element with that GlobalId, if any. -/
def byGuid (m : Model) (g : String) : Option Element :=
  m.elements.find? (fun e => e.globalId == g)

/-- Replace the first element carrying the guid by its image under `f`
(the source mutates the instance `by_guid` returned). -/
def updateFirst : List Element → String → (Element → Element) → List Element
  | [], _, _ => []
  | e :: rest, g, f =>
    if e.globalId == g then f e :: rest else e :: updateFirst rest g f

/-- The result of a sync entry point: the returned boolean, the
`updated_count` it logs, and the persisted model. -/
structure SyncResult where
  success : Bool
  updatedCount : Nat
  model : Model
deriving DecidableEq, Repr

/-- One row of `sync_excel_to_ifc`: an unresolvable guid raises inside the
per-row `try`, is logged and skipped; a resolved row runs the column loop and
then increments `updated_count`. -/
def syncStep (acc : Nat × Model) (r : Row) : Nat × Model :=
  match rowGuid r with
  | none => acc
  | some g =>
    match byGuid acc.2 g with
    | none => acc
    | some _ =>
      (acc.1 + 1, { elements := updateFirst acc.2.elements g (fun e => applyRow e r) })

/-- `SimpleIFCSync.sync_excel_to_ifc` on an already-read table and an
already-open model (file I/O is external; when open, read and save succeed
the function returns True). -/
def sync_excel_to_ifc (rows : List Row) (m : Model) : SyncResult :=
  let final := rows.foldl syncStep (0, m)
  { success := true, updatedCount := final.1, model := final.2 }

/-- One row of `update_ifc_from_dataframe`: resolve the guid, and only when
`G55_LCA` is already in `get_psets` and an own relation carries it and the
`G55_LCA.Gjenbruksstatus` cell is present, edit that single property
(the fast path never creates the set). -/
def fastStep (acc : Nat × Model) (r : Row) : Nat × Model :=
  match rowGuid r with
  | none => acc
  | some g =>
    match byGuid acc.2 g with
    | none => acc
    | some e =>
      if "G55_LCA" ∈ psetNames e then
        if ∃ p ∈ e.ownPsets, p.name = "G55_LCA" then
          match dictGet r.cells "G55_LCA.Gjenbruksstatus" with
          | some v =>
            (acc.1 + 1,
             { elements := updateFirst acc.2.elements g (fun x =>
                 { x with ownPsets :=
                     editPsetFirst x.ownPsets "G55_LCA" [("Gjenbruksstatus", v.toStr)] }) })
          | none => acc
        else acc
      else acc

/-- `SimpleIFCSync.update_ifc_from_dataframe` on an open model. -/
def update_ifc_from_dataframe (rows : List Row) (m : Model) : SyncResult :=
  let final := rows.foldl fastStep (0, m)
  { success := true, updatedCount := final.1, model := final.2 }

/-- The `Original_MMI` scan of `create_analysis_ifc`: per property set, only
the first property whose uppercased name contains `"MMI"` is examined (the
inner `break`); a falsy value leaves the accumulator empty so the outer loop
moves on, a truthy one stops the scan. -/
def scanOriginalMMI : PsetMap → String
  | [] => ""
  | (_, props) :: rest =>
    match props.find? (fun pv => containsSub (strUpper pv.1) "MMI") with
    | some pv =>
      let c := if pyTruthy pv.2 then pyStr pv.2 else ""
      if c == "" then scanOriginalMMI rest else c
    | none => scanOriginalMMI rest

/-- The per-element body of `create_analysis_ifc`'s loop: read `get_psets`
once, add `G55_Prosjektinfo` with its three defaults when that key is absent,
then add `G55_LCA` with its eight defaults when that key is absent from the
same snapshot.  `nowStr` is `datetime.now().isoformat()` and `basert` the
source-file label computed before the loop.  The `G55_Prosjektinfo` set is
created with its three defaults: -/
def pinfoPset (nowStr : String) : Pset :=
  { name := "G55_Prosjektinfo",
    props := editProps []
      [("Prosjekt", "Grønland 55"), ("Opprettet", nowStr), ("Status", "Analyse")] }

/-- The `G55_LCA` set created with its eight defaults. -/
def lcaPset (basert mmi gid : String) : Pset :=
  { name := "G55_LCA",
    props := editProps []
      [("External_ID", gid), ("Basert_på_IFC", basert), ("Original_MMI", mmi),
       ("Gjenbruksstatus", "NY"), ("LCA_Status", "Pending"),
       ("CO2_kg", ""), ("LCA_Method", ""), ("Notes", "")] }

def annotateElement (basert nowStr : String) (e : Element) : Element :=
  let names := psetNames e
  let e1 :=
    if "G55_Prosjektinfo" ∈ names then e
    else { e with ownPsets := e.ownPsets ++ [pinfoPset nowStr] }
  if "G55_LCA" ∈ names then e1
  else
    { e1 with ownPsets := e1.ownPsets ++
        [lcaPset basert (scanOriginalMMI (getPsets e)) e.globalId] }

/-- The element loop of `SimpleIFCSync.create_analysis_ifc` (the copy is then
written to the analysis path; file handling is external). -/
def create_analysis_ifc (basert nowStr : String) (m : Model) : Model :=
  { elements := m.elements.map (annotateElement basert nowStr) }

/-- The eleven flattened keys the two analysis property sets contribute. -/
def newAnnotKeys : List String :=
  ["G55_Prosjektinfo.Prosjekt", "G55_Prosjektinfo.Opprettet",
   "G55_Prosjektinfo.Status", "G55_LCA.External_ID", "G55_LCA.Basert_på_IFC",
   "G55_LCA.Original_MMI", "G55_LCA.Gjenbruksstatus", "G55_LCA.LCA_Status",
   "G55_LCA.CO2_kg", "G55_LCA.LCA_Method", "G55_LCA.Notes"]


/-- The own property sets of a given name (used to state that an existing
set is left untouched). -/
def ownPsetsNamed (e : Element) (nm : String) : List Pset :=
  e.ownPsets.filter (fun p => p.name == nm)

/-- A sample element with the given identity and property sets (all other
attributes empty), used for concrete instances. -/
def mkElem (gid : String) (own typeP : List Pset) : Element :=
  { globalId := gid, tag := none, entityKind := "IfcWall", ename := none,
    etype := none, materialNames := [], containedIn := [], groups := [],
    ownPsets := own, typePsets := typeP }

/-! Basic lemmas about the property-list and element-list operations. -/

theorem lookupProp_cons (q : String × Option Value) (ps : Props) (k : String) :
    lookupProp (q :: ps) k = if q.1 == k then some q.2 else lookupProp ps k := by
  by_cases h : q.1 == k <;> simp [lookupProp, List.find?_cons, h]

theorem setProp_lookup_self (ps : Props) (k : String) (v : Option Value) :
    lookupProp (setProp ps k v) k = some v := by
  induction ps with
  | nil => simp [setProp, lookupProp]
  | cons q rest ih =>
    by_cases h : q.1 == k
    · simp [setProp, h, lookupProp_cons]
    · simp [setProp, h, lookupProp_cons, ih]

theorem setProp_lookup_other (ps : Props) (k k' : String) (v : Option Value)
    (h : k' ≠ k) : lookupProp (setProp ps k v) k' = lookupProp ps k' := by
  have hk : (k == k') = false := by
    simp only [beq_eq_false_iff_ne]
    exact fun hkk => h hkk.symm
  induction ps with
  | nil => simp [setProp, lookupProp_cons, hk, lookupProp]
  | cons q rest ih =>
    by_cases hq : q.1 == k
    · have hq' : q.1 = k := by simpa using hq
      simp [setProp, hq, lookupProp_cons, hk, hq']
    · simp [setProp, hq, lookupProp_cons, ih]

theorem editProps_single (ps : Props) (k v : String) :
    editProps ps [(k, v)] = setProp ps k (some (Value.vStr v)) := rfl

theorem editPsetFirst_names (l : List Pset) (nm : String) (u : List (String × String)) :
    (editPsetFirst l nm u).map Pset.name = l.map Pset.name := by
  induction l with
  | nil => rfl
  | cons p rest ih =>
    by_cases h : p.name == nm <;> simp [editPsetFirst, h, ih]

theorem editPsetFirst_find? (l : List Pset) (nm : String) (u : List (String × String)) :
    (editPsetFirst l nm u).find? (fun p => p.name == nm)
      = (l.find? (fun p => p.name == nm)).map
          (fun p => { p with props := editProps p.props u }) := by
  induction l with
  | nil => rfl
  | cons p rest ih =>
    by_cases h : p.name == nm
    · simp [editPsetFirst, h, List.find?_cons]
    · simp [editPsetFirst, h, List.find?_cons, ih]

theorem updateFirst_find? (es : List Element) (g : String) (f : Element → Element)
    (hf : ∀ x, (f x).globalId = x.globalId) :
    (updateFirst es g f).find? (fun e => e.globalId == g)
      = (es.find? (fun e => e.globalId == g)).map f := by
  induction es with
  | nil => rfl
  | cons a rest ih =>
    by_cases h : a.globalId == g
    · have : ((f a).globalId == g) = true := by rw [hf a]; exact h
      simp [updateFirst, h, List.find?_cons, this]
    · have : ((f a).globalId == g) = false := by rw [hf a]; simpa using h
      simp [updateFirst, h, List.find?_cons, ih]

theorem updateFirst_guids (es : List Element) (g : String) (f : Element → Element)
    (hf : ∀ x, (f x).globalId = x.globalId) :
    (updateFirst es g f).map Element.globalId = es.map Element.globalId := by
  induction es with
  | nil => rfl
  | cons a rest ih =>
    by_cases h : a.globalId == g <;> simp [updateFirst, h, ih, hf]

theorem updateFirst_id (es : List Element) (g : String) (f : Element → Element)
    (hf : ∀ x, f x = x) : updateFirst es g f = es := by
  induction es with
  | nil => rfl
  | cons a rest ih =>
    by_cases h : a.globalId == g <;> simp [updateFirst, h, ih, hf]

theorem find?_guid_decomp (es : List Element) (g : String) (e : Element)
    (h : es.find? (fun x => x.globalId == g) = some e) :
    ∃ pre post, es = pre ++ e :: post ∧ (∀ x ∈ pre, (x.globalId == g) = false) ∧
      ∀ f, updateFirst es g f = pre ++ f e :: post := by
  induction es with
  | nil => simp [List.find?] at h
  | cons a rest ih =>
    by_cases ha : a.globalId == g
    · rw [List.find?_cons, ha] at h
      obtain rfl : a = e := by simpa using h
      exact ⟨[], rest, by simp, by simp, fun f => by simp [updateFirst, ha]⟩
    · rw [List.find?_cons] at h
      simp only [ha] at h
      obtain ⟨pre, post, hsplit, hpre, hupd⟩ := ih h
      refine ⟨a :: pre, post, by simp [hsplit], ?_, fun f => by simp [updateFirst, ha, hupd f]⟩
      intro x hx
      rcases List.mem_cons.1 hx with rfl | hx
      · simpa using ha
      · exact hpre x hx

theorem writeProp_globalId (e : Element) (a b c : String) :
    (writeProp e a b c).globalId = e.globalId := by
  unfold writeProp
  split <;> [skip; rfl]
  split <;> rfl

theorem writeProp_typePsets (e : Element) (a b c : String) :
    (writeProp e a b c).typePsets = e.typePsets := by
  unfold writeProp
  split <;> [skip; rfl]
  split <;> rfl

theorem syncCell_globalId (e : Element) (col : String) (cell : Option Value) :
    (syncCell e col cell).globalId = e.globalId := by
  cases cell with
  | none => rfl
  | some v =>
    simp only [syncCell]
    split
    · exact writeProp_globalId ..
    · rfl

theorem syncCell_typePsets (e : Element) (col : String) (cell : Option Value) :
    (syncCell e col cell).typePsets = e.typePsets := by
  cases cell with
  | none => rfl
  | some v =>
    simp only [syncCell]
    split
    · exact writeProp_typePsets ..
    · rfl

theorem foldl_syncCell_globalId (cs : List (String × Option Value)) :
    ∀ e : Element,
      (cs.foldl (fun acc kv => syncCell acc kv.1 kv.2) e).globalId = e.globalId := by
  induction cs with
  | nil => intro e; rfl
  | cons kv rest ih => intro e; rw [List.foldl_cons, ih, syncCell_globalId]

theorem applyRow_globalId (e : Element) (r : Row) :
    (applyRow e r).globalId = e.globalId :=
  foldl_syncCell_globalId r.cells e

theorem foldl_syncCell_typePsets (cs : List (String × Option Value)) :
    ∀ e : Element,
      (cs.foldl (fun acc kv => syncCell acc kv.1 kv.2) e).typePsets = e.typePsets := by
  induction cs with
  | nil => intro e; rfl
  | cons kv rest ih => intro e; rw [List.foldl_cons, ih, syncCell_typePsets]

theorem applyRow_typePsets (e : Element) (r : Row) :
    (applyRow e r).typePsets = e.typePsets :=
  foldl_syncCell_typePsets r.cells e

/-! Lemmas about the `get_psets` dict and the sync folds. -/

theorem replacePset_names (acc : PsetMap) (nm : String) (pr : Props) :
    (acc.map (fun q => if q.1 = nm then (q.1, pr) else q)).map Prod.fst
      = acc.map Prod.fst := by
  rw [List.map_map]
  apply List.map_congr_left
  intro q hq
  by_cases h : q.1 = nm <;> simp [h]

theorem mem_dictInsertPset_names (acc : PsetMap) (p : Pset) (n : String) :
    n ∈ (dictInsertPset acc p).map Prod.fst ↔ n ∈ acc.map Prod.fst ∨ p.name = n := by
  unfold dictInsertPset
  split
  case isTrue h =>
    rw [replacePset_names]
    constructor
    · exact Or.inl
    · rintro (h1 | rfl)
      · exact h1
      · exact h
  case isFalse h =>
    simp [or_comm, eq_comm]

theorem mem_buildPsetDict_names (l : List Pset) : ∀ (acc : PsetMap) (n : String),
    n ∈ (buildPsetDict acc l).map Prod.fst
      ↔ n ∈ acc.map Prod.fst ∨ ∃ p ∈ l, p.name = n := by
  induction l with
  | nil => simp [buildPsetDict]
  | cons p ps ih =>
    intro acc n
    rw [buildPsetDict, ih, mem_dictInsertPset_names]
    simp [List.mem_cons]
    tauto

theorem mem_psetNames (e : Element) (n : String) :
    n ∈ psetNames e ↔ ∃ p ∈ e.typePsets ++ e.ownPsets, p.name = n := by
  unfold psetNames getPsets
  rw [mem_buildPsetDict_names]
  simp

theorem dictInsertPset_names_congr (acc1 acc2 : PsetMap) (p1 p2 : Pset)
    (hacc : acc1.map Prod.fst = acc2.map Prod.fst) (hp : p1.name = p2.name) :
    (dictInsertPset acc1 p1).map Prod.fst = (dictInsertPset acc2 p2).map Prod.fst := by
  unfold dictInsertPset
  by_cases h : p2.name ∈ acc2.map Prod.fst
  · have h1 : p1.name ∈ acc1.map Prod.fst := by rw [hp, hacc]; exact h
    rw [if_pos h1, if_pos h, replacePset_names, replacePset_names, hacc]
  · have h1 : p1.name ∉ acc1.map Prod.fst := by rw [hp, hacc]; exact h
    rw [if_neg h1, if_neg h]
    simp [hacc, hp]

theorem buildPsetDict_names_congr (l1 : List Pset) : ∀ (l2 : List Pset) (acc1 acc2 : PsetMap),
    l1.map Pset.name = l2.map Pset.name → acc1.map Prod.fst = acc2.map Prod.fst →
    (buildPsetDict acc1 l1).map Prod.fst = (buildPsetDict acc2 l2).map Prod.fst := by
  induction l1 with
  | nil =>
    intro l2 acc1 acc2 hl hacc
    cases l2 with
    | nil => simpa [buildPsetDict] using hacc
    | cons q qs => simp at hl
  | cons p ps ih =>
    intro l2 acc1 acc2 hl hacc
    cases l2 with
    | nil => simp at hl
    | cons q qs =>
      simp only [List.map_cons, List.cons.injEq] at hl
      rw [buildPsetDict, buildPsetDict]
      exact ih qs _ _ hl.2 (dictInsertPset_names_congr _ _ _ _ hacc hl.1)

theorem psetNames_congr (e1 e2 : Element)
    (h : (e1.typePsets ++ e1.ownPsets).map Pset.name
          = (e2.typePsets ++ e2.ownPsets).map Pset.name) :
    psetNames e1 = psetNames e2 :=
  buildPsetDict_names_congr _ _ _ _ h rfl

theorem psetNames_editOwn (e : Element) (nm : String) (u : List (String × String)) :
    psetNames { e with ownPsets := editPsetFirst e.ownPsets nm u } = psetNames e := by
  apply psetNames_congr
  simp [editPsetFirst_names]

theorem buildPsetDict_append (l1 : List Pset) : ∀ (acc : PsetMap) (l2 : List Pset),
    buildPsetDict acc (l1 ++ l2) = buildPsetDict (buildPsetDict acc l1) l2 := by
  induction l1 with
  | nil => intro acc l2; rfl
  | cons p ps ih => intro acc l2; rw [List.cons_append, buildPsetDict, buildPsetDict, ih]

theorem buildPsetDict_snoc_fresh (acc : PsetMap) (l : List Pset) (p : Pset)
    (h : p.name ∉ (buildPsetDict acc l).map Prod.fst) :
    buildPsetDict acc (l ++ [p]) = buildPsetDict acc l ++ [(p.name, p.props)] := by
  rw [buildPsetDict_append, buildPsetDict, buildPsetDict, dictInsertPset, if_neg h]

theorem syncStep_guids (acc : Nat × Model) (r : Row) :
    (syncStep acc r).2.elements.map Element.globalId
      = acc.2.elements.map Element.globalId := by
  cases hg : rowGuid r with
  | none => simp [syncStep, hg]
  | some g =>
    cases hb : byGuid acc.2 g with
    | none => simp [syncStep, hg, hb]
    | some e =>
      simp only [syncStep, hg, hb]
      exact updateFirst_guids _ _ _ (fun x => applyRow_globalId x r)

theorem foldl_syncStep_guids (rows : List Row) : ∀ acc : Nat × Model,
    ((rows.foldl syncStep acc).2).elements.map Element.globalId
      = acc.2.elements.map Element.globalId := by
  induction rows with
  | nil => intro acc; rfl
  | cons r rest ih => intro acc; rw [List.foldl_cons, ih, syncStep_guids]

theorem byGuid_none_congr (m m' : Model) (g : String)
    (hg : m'.elements.map Element.globalId = m.elements.map Element.globalId)
    (h : byGuid m g = none) : byGuid m' g = none := by
  rw [byGuid, List.find?_eq_none] at h ⊢
  intro x hx
  have hmem : x.globalId ∈ m'.elements.map Element.globalId := List.mem_map_of_mem _ hx
  rw [hg] at hmem
  obtain ⟨y, hy, hxy⟩ := List.mem_map.1 hmem
  have hyg := h y hy
  simp only [beq_iff_eq] at hyg ⊢
  rw [← hxy]
  exact fun hc => hyg hc

/-! Lemmas about dot-splitting of column names. -/

theorem string_data_append (s t : String) : (s ++ t).data = s.data ++ t.data := by
  cases s
  cases t
  rfl

theorem string_ext (s t : String) (h : s.data = t.data) : s = t := by
  cases s
  cases t
  exact congrArg String.mk h

theorem charsSplit_unique (a : List Char) : ∀ (c b d : List Char), '.' ∉ a → '.' ∉ c →
    a ++ '.' :: b = c ++ '.' :: d → a = c ∧ b = d := by
  induction a with
  | nil =>
    intro c b d _ hc h
    cases c with
    | nil => simpa using h
    | cons x xs =>
      simp only [List.nil_append, List.cons_append, List.cons.injEq] at h
      exact absurd (h.1 ▸ List.mem_cons_self x xs) (h.1 ▸ hc)
  | cons y ys ih =>
    intro c b d ha hc h
    cases c with
    | nil =>
      simp only [List.cons_append, List.nil_append, List.cons.injEq] at h
      exact absurd (h.1 ▸ List.mem_cons_self y ys) (h.1 ▸ ha)
    | cons x xs =>
      simp only [List.cons_append, List.cons.injEq] at h
      have ha' : '.' ∉ ys := fun hm => ha (List.mem_cons_of_mem y hm)
      have hc' : '.' ∉ xs := fun hm => hc (List.mem_cons_of_mem x hm)
      obtain ⟨h1, h2⟩ := ih xs b d ha' hc' h.2
      exact ⟨by rw [h.1, h1], h2⟩

theorem dotfree_of_append_eq (a b c d : List Char) (hc : '.' ∉ c) (hd : '.' ∉ d)
    (h : a ++ '.' :: b = c ++ '.' :: d) : '.' ∉ a ∧ '.' ∉ b := by
  have hcount : (a ++ '.' :: b).count '.' = (c ++ '.' :: d).count '.' := by rw [h]
  rw [List.count_append, List.count_append, List.count_cons_self, List.count_cons_self,
      List.count_eq_zero.2 hc, List.count_eq_zero.2 hd] at hcount
  have ha : a.count '.' = 0 := by omega
  have hb : b.count '.' = 0 := by omega
  exact ⟨List.count_eq_zero.1 ha, List.count_eq_zero.1 hb⟩

theorem string_dot_inj (pn q N r : String)
    (hN : '.' ∉ N.data) (hr : '.' ∉ r.data)
    (h : pn ++ "." ++ q = N ++ "." ++ r) : pn = N ∧ q = r := by
  have hd : pn.data ++ '.' :: q.data = N.data ++ '.' :: r.data := by
    have h2 := congrArg String.data h
    rw [string_data_append, string_data_append, string_data_append, string_data_append] at h2
    simpa using h2
  have hfree := dotfree_of_append_eq _ _ _ _ hN hr hd
  obtain ⟨h1, h2⟩ := charsSplit_unique _ _ _ _ hfree.1 hN hd
  exact ⟨string_ext _ _ h1, string_ext _ _ h2⟩

theorem rsplitAux_none (l : List Char) : rsplitAux l = none ↔ '.' ∉ l := by
  induction l with
  | nil => simp [rsplitAux]
  | cons c rest ih =>
    simp only [rsplitAux]
    cases h : rsplitAux rest with
    | some pr =>
      have : '.' ∈ rest := by
        by_contra hn
        rw [ih.2 hn] at h
        exact Option.noConfusion h
      simp [List.mem_cons, this]
    | none =>
      by_cases hc : c == '.'
      · have hc' : c = '.' := by simpa using hc
        simp [hc, hc']
      · have hc' : ¬('.' = c) := fun he => by simp [he.symm] at hc
        simp [hc, List.mem_cons, hc', ih.1 h]

theorem rsplitAux_spec (l : List Char) : ∀ pre suf, rsplitAux l = some (pre, suf) →
    l = pre ++ '.' :: suf ∧ '.' ∉ suf := by
  induction l with
  | nil => intro pre suf h; simp [rsplitAux] at h
  | cons c rest ih =>
    intro pre suf h
    simp only [rsplitAux] at h
    cases hr : rsplitAux rest with
    | some pr =>
      rw [hr] at h
      have hpre : pre = c :: pr.1 ∧ suf = pr.2 := by
        cases pr
        simp only [Option.some.injEq, Prod.mk.injEq] at h
        exact ⟨h.1.symm, h.2.symm⟩
      obtain ⟨hspec1, hspec2⟩ := ih pr.1 pr.2 (by rw [hr])
      rw [hpre.1, hpre.2]
      constructor
      · rw [List.cons_append]
        exact congrArg (c :: ·) hspec1
      · exact hspec2
    | none =>
      rw [hr] at h
      by_cases hc : c == '.'
      · rw [if_pos hc] at h
        have hc' : c = '.' := by simpa using hc
        simp only [Option.some.injEq, Prod.mk.injEq] at h
        rw [← h.1, ← h.2, hc']
        exact ⟨by simp, h.2 ▸ (rsplitAux_none rest).1 hr⟩
      · rw [if_neg hc] at h
        exact Option.noConfusion h

theorem rsplitDot_spec (col s p : String) (hdot : '.' ∈ col.data)
    (h : rsplitDot col = (s, p)) : col = s ++ "." ++ p ∧ '.' ∉ p.data := by
  unfold rsplitDot at h
  cases hr : rsplitAux col.data with
  | none => exact absurd ((rsplitAux_none col.data).1 hr) (by simpa using hdot)
  | some pr =>
    rw [hr] at h
    obtain ⟨hspec1, hspec2⟩ := rsplitAux_spec col.data pr.1 pr.2 (by rw [hr])
    have hs : s = ⟨pr.1⟩ := by
      cases pr
      simp only [Option.some.injEq, Prod.mk.injEq] at h ⊢
      exact h.1.symm
    have hp : p = ⟨pr.2⟩ := by
      cases pr
      simp only [Option.some.injEq, Prod.mk.injEq] at h ⊢
      exact h.2.symm
    constructor
    · refine string_ext _ _ ?_
      rw [string_data_append, string_data_append, hs, hp, hspec1]
      simp
    · rw [hp]
      exact hspec2

/-! Lemmas about the flattener, the dict lookups and the column union. -/

theorem flattenPairs_append (l1 l2 : PsetMap) :
    flattenPairs (l1 ++ l2) = flattenPairs l1 ++ flattenPairs l2 := by
  induction l1 with
  | nil => rfl
  | cons q rest ih =>
    cases q
    simp [flattenPairs, ih]

theorem mem_flattenPairs (ps : PsetMap) (kv : String × Value) :
    kv ∈ flattenPairs ps ↔ ∃ pn props q v, (pn, props) ∈ ps ∧ (q, v) ∈ props ∧
      kv = (pn ++ "." ++ q, v.getD (Value.vStr "")) := by
  induction ps with
  | nil => simp [flattenPairs]
  | cons hd rest ih =>
    obtain ⟨pn, props⟩ := hd
    simp only [flattenPairs, List.mem_append, List.mem_map, ih, List.mem_cons]
    constructor
    · rintro (⟨pv, hpv, rfl⟩ | ⟨pn', props', q', v', hmem, hv, rfl⟩)
      · exact ⟨pn, props, pv.1, pv.2, Or.inl rfl, by simpa using hpv, rfl⟩
      · exact ⟨pn', props', q', v', Or.inr hmem, hv, rfl⟩
    · rintro ⟨pn', props', q', v', hmem | hmem, hv, rfl⟩
      · simp only [Prod.mk.injEq] at hmem
        obtain ⟨rfl, rfl⟩ := hmem
        exact Or.inl ⟨(q', v'), hv, rfl⟩
      · exact Or.inr ⟨pn', props', q', v', hmem, hv, rfl⟩

theorem dictLookupV_append_of_nomem (l1 l2 : List (String × Value)) (k : String)
    (h : k ∉ l2.map Prod.fst) : dictLookupV (l1 ++ l2) k = dictLookupV l1 k := by
  unfold dictLookupV
  rw [List.reverse_append]
  have hnone : l2.reverse.find? (fun kv => kv.1 == k) = none := by
    rw [List.find?_eq_none]
    intro x hx
    simp only [beq_iff_eq]
    exact fun he => h (he ▸ List.mem_map_of_mem _ (List.mem_reverse.1 hx))
  rw [List.find?_append, hnone]
  rfl

theorem dictGet_of_nomem (row : List (String × Option Value)) (k : String)
    (h : k ∉ row.map Prod.fst) : dictGet row k = none := by
  unfold dictGet
  have hnone : row.reverse.find? (fun kv => kv.1 == k) = none := by
    rw [List.find?_eq_none]
    intro x hx
    simp only [beq_iff_eq]
    exact fun he => h (he ▸ List.mem_map_of_mem _ (List.mem_reverse.1 hx))
  rw [hnone]

theorem mem_addCols (row : List (String × Option Value)) : ∀ (acc : List String) (x : String),
    x ∈ addCols acc row ↔ x ∈ acc ∨ x ∈ row.map Prod.fst := by
  induction row with
  | nil => simp [addCols]
  | cons kv rest ih =>
    intro acc x
    rw [addCols, ih]
    by_cases h : kv.1 ∈ acc
    · rw [if_pos h]
      simp only [List.map_cons, List.mem_cons]
      constructor
      · rintro (hx | hx)
        · exact Or.inl hx
        · exact Or.inr (Or.inr hx)
      · rintro (hx | rfl | hx)
        · exact Or.inl hx
        · exact Or.inl h
        · exact Or.inr hx
    · rw [if_neg h]
      simp only [List.mem_append, List.mem_singleton, List.map_cons, List.mem_cons]
      tauto

theorem mem_dfColumns (rows : List (List (String × Option Value))) :
    ∀ (acc : List String) (x : String),
      x ∈ dfColumns acc rows ↔ x ∈ acc ∨ ∃ r ∈ rows, x ∈ r.map Prod.fst := by
  induction rows with
  | nil => simp [dfColumns]
  | cons r rest ih =>
    intro acc x
    rw [dfColumns, ih, mem_addCols]
    simp only [List.mem_cons]
    constructor
    · rintro ((hx | hx) | ⟨r', hr', hx⟩)
      · exact Or.inl hx
      · exact Or.inr ⟨r, Or.inl rfl, hx⟩
      · exact Or.inr ⟨r', Or.inr hr', hx⟩
    · rintro (hx | ⟨r', rfl | hr', hx⟩)
      · exact Or.inl (Or.inl hx)
      · exact Or.inl (Or.inr hx)
      · exact Or.inr ⟨r', hr', hx⟩


/-! Lemmas about the per-element annotation step. -/

theorem annotate_result (b n : String) (e : Element) :
    annotateElement b n e =
      if "G55_Prosjektinfo" ∈ psetNames e then
        (if "G55_LCA" ∈ psetNames e then e
         else { e with ownPsets :=
             e.ownPsets ++ [lcaPset b (scanOriginalMMI (getPsets e)) e.globalId] })
      else
        (if "G55_LCA" ∈ psetNames e then
           { e with ownPsets := e.ownPsets ++ [pinfoPset n] }
         else { e with ownPsets :=
             e.ownPsets ++ [pinfoPset n, lcaPset b (scanOriginalMMI (getPsets e)) e.globalId] }) := by
  unfold annotateElement
  by_cases h1 : "G55_Prosjektinfo" ∈ psetNames e <;>
    by_cases h2 : "G55_LCA" ∈ psetNames e <;>
      simp [h1, h2]

theorem annotate_typePsets (b n : String) (e : Element) :
    (annotateElement b n e).typePsets = e.typePsets := by
  rw [annotate_result]
  by_cases h1 : "G55_Prosjektinfo" ∈ psetNames e <;>
    by_cases h2 : "G55_LCA" ∈ psetNames e <;>
      simp [h1, h2]

theorem annotate_globalId (b n : String) (e : Element) :
    (annotateElement b n e).globalId = e.globalId := by
  rw [annotate_result]
  by_cases h1 : "G55_Prosjektinfo" ∈ psetNames e <;>
    by_cases h2 : "G55_LCA" ∈ psetNames e <;>
      simp [h1, h2]

theorem annotate_of_has (b n : String) (x : Element)
    (h1 : "G55_Prosjektinfo" ∈ psetNames x) (h2 : "G55_LCA" ∈ psetNames x) :
    annotateElement b n x = x := by
  rw [annotate_result, if_pos h1, if_pos h2]

theorem mem_psetNames_append_own (e : Element) (new : List Pset) (nm : String) :
    nm ∈ psetNames { e with ownPsets := e.ownPsets ++ new }
      ↔ nm ∈ psetNames e ∨ ∃ p ∈ new, p.name = nm := by
  rw [mem_psetNames, mem_psetNames]
  constructor
  · rintro ⟨p, hp, hn⟩
    simp only [List.append_assoc, List.mem_append] at hp
    rcases hp with h | h | h
    · exact Or.inl ⟨p, List.mem_append.2 (Or.inl h), hn⟩
    · exact Or.inl ⟨p, List.mem_append.2 (Or.inr h), hn⟩
    · exact Or.inr ⟨p, h, hn⟩
  · rintro (⟨p, hp, hn⟩ | ⟨p, hp, hn⟩)
    · refine ⟨p, ?_, hn⟩
      rw [List.mem_append] at hp
      simp only [List.append_assoc, List.mem_append]
      tauto
    · refine ⟨p, ?_, hn⟩
      simp only [List.append_assoc, List.mem_append]
      exact Or.inr (Or.inr hp)

theorem annotate_has_names (b n : String) (e : Element) :
    "G55_Prosjektinfo" ∈ psetNames (annotateElement b n e) ∧
      "G55_LCA" ∈ psetNames (annotateElement b n e) := by
  rw [annotate_result]
  by_cases h1 : "G55_Prosjektinfo" ∈ psetNames e <;>
    by_cases h2 : "G55_LCA" ∈ psetNames e
  · rw [if_pos h1, if_pos h2]
    exact ⟨h1, h2⟩
  · rw [if_pos h1, if_neg h2]
    constructor
    · exact (mem_psetNames_append_own e _ _).2 (Or.inl h1)
    · exact (mem_psetNames_append_own e _ _).2
        (Or.inr ⟨_, List.mem_singleton.2 rfl, rfl⟩)
  · rw [if_neg h1, if_pos h2]
    constructor
    · exact (mem_psetNames_append_own e _ _).2
        (Or.inr ⟨_, List.mem_singleton.2 rfl, rfl⟩)
    · exact (mem_psetNames_append_own e _ _).2 (Or.inl h2)
  · rw [if_neg h1, if_neg h2]
    constructor
    · exact (mem_psetNames_append_own e _ _).2
        (Or.inr ⟨pinfoPset n, by simp, rfl⟩)
    · exact (mem_psetNames_append_own e _ _).2
        (Or.inr ⟨lcaPset b (scanOriginalMMI (getPsets e)) e.globalId, by simp, rfl⟩)

theorem annotate_idem (b n b' n' : String) (e : Element) :
    annotateElement b n (annotateElement b' n' e) = annotateElement b' n' e :=
  annotate_of_has b n _ (annotate_has_names b' n' e).1 (annotate_has_names b' n' e).2

theorem annotate_untouched (b n : String) (e : Element) (nm : String)
    (h : nm ∈ psetNames e)
    (hnm : nm = "G55_Prosjektinfo" ∨ nm = "G55_LCA") :
    ownPsetsNamed (annotateElement b n e) nm = ownPsetsNamed e nm := by
  rw [annotate_result]
  by_cases h1 : "G55_Prosjektinfo" ∈ psetNames e <;>
    by_cases h2 : "G55_LCA" ∈ psetNames e
  · rw [if_pos h1, if_pos h2]
  · rw [if_pos h1, if_neg h2]
    rcases hnm with rfl | rfl
    · simp +decide [ownPsetsNamed, List.filter_append, lcaPset]
    · exact absurd h h2
  · rw [if_neg h1, if_pos h2]
    rcases hnm with rfl | rfl
    · exact absurd h h1
    · simp +decide [ownPsetsNamed, List.filter_append, pinfoPset]
  · rcases hnm with rfl | rfl
    · exact absurd h h1
    · exact absurd h h2

theorem getPsets_annotate_fresh (b n : String) (e : Element)
    (h1 : "G55_Prosjektinfo" ∉ psetNames e) (h2 : "G55_LCA" ∉ psetNames e) :
    getPsets (annotateElement b n e) = getPsets e ++
      [("G55_Prosjektinfo", (pinfoPset n).props),
       ("G55_LCA", (lcaPset b (scanOriginalMMI (getPsets e)) e.globalId).props)] := by
  rw [annotate_result, if_neg h1, if_neg h2]
  show buildPsetDict []
      (e.typePsets ++
        (e.ownPsets ++ [pinfoPset n, lcaPset b (scanOriginalMMI (getPsets e)) e.globalId])) = _
  rw [show e.typePsets ++
        (e.ownPsets ++ [pinfoPset n, lcaPset b (scanOriginalMMI (getPsets e)) e.globalId])
      = ((e.typePsets ++ e.ownPsets) ++ [pinfoPset n])
          ++ [lcaPset b (scanOriginalMMI (getPsets e)) e.globalId] from by simp]
  have hf1 : (pinfoPset n).name ∉ (buildPsetDict [] (e.typePsets ++ e.ownPsets)).map Prod.fst := h1
  have hinner := buildPsetDict_snoc_fresh [] (e.typePsets ++ e.ownPsets) (pinfoPset n) hf1
  have hf2 : (lcaPset b (scanOriginalMMI (getPsets e)) e.globalId).name
      ∉ (buildPsetDict [] ((e.typePsets ++ e.ownPsets) ++ [pinfoPset n])).map Prod.fst := by
    rw [hinner]
    intro hc
    rw [List.map_append, List.mem_append] at hc
    rcases hc with hc | hc
    · exact h2 hc
    · simp +decide [pinfoPset, lcaPset] at hc
  rw [buildPsetDict_snoc_fresh _ _ _ hf2, hinner]
  simp [getPsets]
  exact ⟨rfl, rfl⟩

/-! Evaluation lemmas for a one-row sync. -/

theorem syncCell_write (e : Element) (col : String) (v : Value)
    (hd : '.' ∈ col.data) (hu : underscoreLead col = false) :
    syncCell e col (some v) = writeProp e (rsplitDot col).1 (rsplitDot col).2 v.toStr := by
  simp [syncCell, hd, hu]

theorem syncCell_nodot (e : Element) (col : String) (v : Value)
    (hd : '.' ∉ col.data) : syncCell e col (some v) = e := by
  simp [syncCell, hd]

theorem writeProp_edit (e : Element) (s pn vs : String)
    (hmem : s ∈ psetNames e) (hown : ∃ p ∈ e.ownPsets, p.name = s) :
    writeProp e s pn vs = { e with ownPsets := editPsetFirst e.ownPsets s [(pn, vs)] } := by
  unfold writeProp
  rw [if_pos hmem, if_pos hown]

theorem writeProp_skip (e : Element) (s pn vs : String)
    (hmem : s ∈ psetNames e) (hown : ¬ ∃ p ∈ e.ownPsets, p.name = s) :
    writeProp e s pn vs = e := by
  unfold writeProp
  rw [if_pos hmem, if_neg hown]

theorem writeProp_create (e : Element) (s pn vs : String)
    (hmem : s ∉ psetNames e) :
    writeProp e s pn vs
      = { e with ownPsets :=
            e.ownPsets ++ [{ name := s, props := [(pn, some (Value.vStr vs))] }] } := by
  unfold writeProp
  rw [if_neg hmem]
  rfl

theorem mem_psetNames_of_own (e : Element) (s : String)
    (h : ∃ p ∈ e.ownPsets, p.name = s) : s ∈ psetNames e := by
  obtain ⟨p, hp, hn⟩ := h
  exact (mem_psetNames e s).2 ⟨p, List.mem_append.2 (Or.inr hp), hn⟩

theorem col_ne_GUID (col : String) (h : '.' ∈ col.data) : (col == "GUID") = false := by
  rw [beq_eq_false_iff_ne]
  rintro rfl
  exact absurd h (by decide)

theorem rowGuid_pair (g col : String) (cell : Option Value)
    (hne : (col == "GUID") = false) :
    rowGuid { cells := [("GUID", some (Value.vStr g)), (col, cell)] } = some g := by
  simp [rowGuid, dictGet, List.find?_cons, hne]

theorem sync_singleton (m : Model) (g : String) (e : Element) (col : String)
    (cell : Option Value) (hb : byGuid m g = some e) (hne : (col == "GUID") = false) :
    sync_excel_to_ifc [{ cells := [("GUID", some (Value.vStr g)), (col, cell)] }] m
      = { success := true, updatedCount := 1,
          model := { elements :=
            updateFirst m.elements g (fun x => syncCell x col cell) } } := by
  have hg := rowGuid_pair g col cell hne
  have hguid : ∀ x : Element, syncCell x "GUID" (some (Value.vStr g)) = x := by
    intro x
    exact syncCell_nodot x _ _ (by decide)
  unfold sync_excel_to_ifc
  rw [List.foldl_cons, List.foldl_nil]
  simp only [syncStep, hg, hb, applyRow, List.foldl_cons, List.foldl_nil, hguid]

theorem byGuid_update_syncCell (m : Model) (g : String) (e : Element) (col : String)
    (cell : Option Value) (hb : byGuid m g = some e) :
    byGuid { elements := updateFirst m.elements g (fun x => syncCell x col cell) } g
      = some (syncCell e col cell) := by
  unfold byGuid at hb ⊢
  rw [updateFirst_find? _ _ _ (fun x => syncCell_globalId x col cell), hb]
  rfl

/-- C1: Sync targeted-write isolation.  For an element whose first own
property set named `s` holds `a = "1"` and `b = "2"`, syncing a one-row table
whose column `col` (splitting to `(s, a)`) holds a present value leaves that
set with `a` updated to the stringified value and `b` still `"2"`, and no
property other than `a` is written. -/
theorem claim_C1 (m : Model) (g col s a b : String) (v : Value) (e : Element) (ps : Pset)
    (hb : byGuid m g = some e)
    (hdot : '.' ∈ col.data) (hus : underscoreLead col = false)
    (hsplit : rsplitDot col = (s, a))
    (hown : firstOwn e s = some ps)
    (_hA : lookupProp ps.props a = some (some (Value.vStr "1")))
    (hB : lookupProp ps.props b = some (some (Value.vStr "2")))
    (hab : b ≠ a) :
    ∃ e', byGuid ((sync_excel_to_ifc
        [{ cells := [("GUID", some (Value.vStr g)), (col, some v)] }] m).model) g = some e' ∧
      ∃ ps', firstOwn e' s = some ps' ∧
        lookupProp ps'.props a = some (some (Value.vStr v.toStr)) ∧
        lookupProp ps'.props b = some (some (Value.vStr "2")) ∧
        ∀ k, k ≠ a → lookupProp ps'.props k = lookupProp ps.props k := by
  have hne := col_ne_GUID col hdot
  rw [sync_singleton m g e col (some v) hb hne]
  refine ⟨syncCell e col (some v), byGuid_update_syncCell m g e col (some v) hb, ?_⟩
  have hexists : ∃ p ∈ e.ownPsets, p.name = s :=
    ⟨ps, List.mem_of_find?_eq_some hown, by simpa using List.find?_some hown⟩
  rw [syncCell_write e col v hdot hus, hsplit]
  rw [writeProp_edit _ _ _ _ (mem_psetNames_of_own e s hexists) hexists]
  refine ⟨{ ps with props := editProps ps.props [(a, v.toStr)] }, ?_, ?_, ?_, ?_⟩
  · show (editPsetFirst e.ownPsets s [(a, v.toStr)]).find? (fun p => p.name == s) = _
    have hown' : List.find? (fun p => p.name == s) e.ownPsets = some ps := hown
    rw [editPsetFirst_find?, hown']
    rfl
  · show lookupProp (editProps ps.props [(a, v.toStr)]) a = _
    rw [editProps_single, setProp_lookup_self]
  · show lookupProp (editProps ps.props [(a, v.toStr)]) b = _
    rw [editProps_single, setProp_lookup_other _ _ _ _ hab, hB]
  · intro k hk
    show lookupProp (editProps ps.props [(a, v.toStr)]) k = _
    rw [editProps_single, setProp_lookup_other _ _ _ _ hk]

theorem claim_C1_witness :
    ∃ e', byGuid ((sync_excel_to_ifc
        [{ cells := [("GUID", some (Value.vStr "E1")), ("S.a", some (Value.vStr "9"))] }]
        (Model.mk [mkElem "E1"
          [Pset.mk "S" [("a", some (Value.vStr "1")), ("b", some (Value.vStr "2"))]] []])).model)
        "E1" = some e' ∧
      ∃ ps', firstOwn e' "S" = some ps' ∧
        lookupProp ps'.props "a" = some (some (Value.vStr (Value.vStr "9").toStr)) ∧
        lookupProp ps'.props "b" = some (some (Value.vStr "2")) ∧
        ∀ k, k ≠ "a" → lookupProp ps'.props k
          = lookupProp (Pset.mk "S"
              [("a", some (Value.vStr "1")), ("b", some (Value.vStr "2"))]).props k :=
  claim_C1 _ "E1" "S.a" "S" "a" "b" (Value.vStr "9")
    (mkElem "E1" [Pset.mk "S" [("a", some (Value.vStr "1")), ("b", some (Value.vStr "2"))]] [])
    (Pset.mk "S" [("a", some (Value.vStr "1")), ("b", some (Value.vStr "2"))])
    (by decide) (by decide) (by decide) (by decide) (by decide) (by decide) (by decide)
    (by decide)

/-- C4: Sync creates missing sets.  Syncing a column `col` splitting to
`(t, c)` where `t` is not among the element's reported property sets appends
a fresh own set named `t` holding exactly the one stringified property, and
leaves every other own set, the type sets and the identity untouched. -/
theorem claim_C4 (m : Model) (g col t c : String) (v : Value) (e : Element)
    (hb : byGuid m g = some e)
    (hdot : '.' ∈ col.data) (hus : underscoreLead col = false)
    (hsplit : rsplitDot col = (t, c))
    (habsent : t ∉ psetNames e) :
    ∃ e', byGuid ((sync_excel_to_ifc
        [{ cells := [("GUID", some (Value.vStr g)), (col, some v)] }] m).model) g = some e' ∧
      e'.ownPsets = e.ownPsets ++ [{ name := t, props := [(c, some (Value.vStr v.toStr))] }] ∧
      e'.typePsets = e.typePsets ∧ e'.globalId = e.globalId := by
  have hne := col_ne_GUID col hdot
  rw [sync_singleton m g e col (some v) hb hne]
  refine ⟨syncCell e col (some v), byGuid_update_syncCell m g e col (some v) hb, ?_⟩
  rw [syncCell_write e col v hdot hus, hsplit]
  rw [writeProp_create _ _ _ _ habsent]
  exact ⟨rfl, rfl, rfl⟩

/-- Closed instance of C4 at a concrete element having no `T` set. -/
theorem claim_C4_witness :
    ∃ e', byGuid ((sync_excel_to_ifc
        [{ cells := [("GUID", some (Value.vStr "E1")), ("T.c", some (Value.vInt 7))] }]
        (Model.mk [mkElem "E1" [Pset.mk "S" [("a", some (Value.vStr "1"))]] []])).model)
        "E1" = some e' ∧
      e'.ownPsets = (mkElem "E1" [Pset.mk "S" [("a", some (Value.vStr "1"))]] []).ownPsets
          ++ [{ name := "T", props := [("c", some (Value.vStr (Value.vInt 7).toStr))] }] ∧
      e'.typePsets = (mkElem "E1" [Pset.mk "S" [("a", some (Value.vStr "1"))]] []).typePsets ∧
      e'.globalId = (mkElem "E1" [Pset.mk "S" [("a", some (Value.vStr "1"))]] []).globalId :=
  claim_C4 _ "E1" "T.c" "T" "c" (Value.vInt 7)
    (mkElem "E1" [Pset.mk "S" [("a", some (Value.vStr "1"))]] [])
    (by decide) (by decide) (by decide) (by decide) (by decide)

/-- C10: a set name reported by `get_psets` only through the element's type
has no own `IfcRelDefinesByProperties` relation, so the sync's exists-branch
finds no relation and performs no write at all — the model is returned
unchanged and the row still counts as processed. -/
theorem claim_C10 (m : Model) (g col t c : String) (v : Value) (e : Element)
    (hb : byGuid m g = some e)
    (hdot : '.' ∈ col.data) (hus : underscoreLead col = false)
    (hsplit : rsplitDot col = (t, c))
    (hin : t ∈ psetNames e)
    (hown : ∀ p ∈ e.ownPsets, p.name ≠ t) :
    sync_excel_to_ifc [{ cells := [("GUID", some (Value.vStr g)), (col, some v)] }] m
      = { success := true, updatedCount := 1, model := m } := by
  have hne := col_ne_GUID col hdot
  rw [sync_singleton m g e col (some v) hb hne]
  have hskip : syncCell e col (some v) = e := by
    rw [syncCell_write e col v hdot hus, hsplit]
    exact writeProp_skip _ _ _ _ hin (by rintro ⟨p, hp, hn⟩; exact hown p hp hn)
  obtain ⟨pre, post, hdecomp, _, hupd⟩ := find?_guid_decomp m.elements g e hb
  have helems : updateFirst m.elements g (fun x => syncCell x col (some v)) = m.elements := by
    rw [hupd, hskip, ← hdecomp]
  rw [helems]

/-- Closed instance of C10: the set `T` is only type-inherited. -/
theorem claim_C10_witness :
    sync_excel_to_ifc
        [{ cells := [("GUID", some (Value.vStr "E1")), ("T.c", some (Value.vStr "x"))] }]
        (Model.mk [mkElem "E1" [] [Pset.mk "T" [("c", some (Value.vStr "old"))]]])
      = { success := true, updatedCount := 1,
          model := Model.mk [mkElem "E1" [] [Pset.mk "T" [("c", some (Value.vStr "old"))]]] } :=
  claim_C10 _ "E1" "T.c" "T" "c" (Value.vStr "x")
    (mkElem "E1" [] [Pset.mk "T" [("c", some (Value.vStr "old"))]])
    (by decide) (by decide) (by decide) (by decide) (by decide) (by decide)

/-- C6: an unresolvable row is skipped, not fatal.  A row whose guid has no
match in the model leaves the fold unchanged, so the sync of the whole table
equals the sync of the table without that row, and the batch still reports
success. -/
theorem claim_C6 (m : Model) (pre post : List Row) (bad : Row) (g : String)
    (hg : rowGuid bad = some g) (hnone : byGuid m g = none) :
    sync_excel_to_ifc (pre ++ bad :: post) m = sync_excel_to_ifc (pre ++ post) m ∧
    (sync_excel_to_ifc (pre ++ bad :: post) m).success = true := by
  have hstep : ∀ acc : Nat × Model,
      acc.2.elements.map Element.globalId = m.elements.map Element.globalId →
      syncStep acc bad = acc := by
    intro acc hacc
    have hb : byGuid acc.2 g = none := byGuid_none_congr m acc.2 g hacc hnone
    simp [syncStep, hg, hb]
  constructor
  · simp only [sync_excel_to_ifc]
    rw [List.foldl_append, List.foldl_append, List.foldl_cons,
        hstep _ (foldl_syncStep_guids pre (0, m))]
  · rfl

/-- Closed instance of C6: guid `ZZZ` matches nothing, the `E1` row is still
applied. -/
theorem claim_C6_witness :
    (sync_excel_to_ifc
        ([{ cells := [("GUID", some (Value.vStr "E1")), ("S.a", some (Value.vStr "9"))] }] ++
          { cells := [("GUID", some (Value.vStr "ZZZ")), ("S.a", some (Value.vStr "9"))] } :: [])
        (Model.mk [mkElem "E1" [Pset.mk "S" [("a", some (Value.vStr "1"))]] []])
      = sync_excel_to_ifc
          ([{ cells := [("GUID", some (Value.vStr "E1")), ("S.a", some (Value.vStr "9"))] }] ++ [])
          (Model.mk [mkElem "E1" [Pset.mk "S" [("a", some (Value.vStr "1"))]] []])) ∧
    (sync_excel_to_ifc
        ([{ cells := [("GUID", some (Value.vStr "E1")), ("S.a", some (Value.vStr "9"))] }] ++
          { cells := [("GUID", some (Value.vStr "ZZZ")), ("S.a", some (Value.vStr "9"))] } :: [])
        (Model.mk [mkElem "E1" [Pset.mk "S" [("a", some (Value.vStr "1"))]] []])).success = true :=
  claim_C6 (Model.mk [mkElem "E1" [Pset.mk "S" [("a", some (Value.vStr "1"))]] []])
    [{ cells := [("GUID", some (Value.vStr "E1")), ("S.a", some (Value.vStr "9"))] }] []
    { cells := [("GUID", some (Value.vStr "ZZZ")), ("S.a", some (Value.vStr "9"))] } "ZZZ"
    (by decide) (by decide)

/-- C2: idempotence of annotation.  A second annotation pass over an element
returns it unchanged, an already-present `G55_Prosjektinfo` or `G55_LCA` set
is never touched, and the type-inherited sets are never touched. -/
theorem claim_C2 (b n b' n' : String) (e : Element) :
    annotateElement b n (annotateElement b' n' e) = annotateElement b' n' e ∧
    ("G55_Prosjektinfo" ∈ psetNames e →
      ownPsetsNamed (annotateElement b n e) "G55_Prosjektinfo"
        = ownPsetsNamed e "G55_Prosjektinfo") ∧
    ("G55_LCA" ∈ psetNames e →
      ownPsetsNamed (annotateElement b n e) "G55_LCA" = ownPsetsNamed e "G55_LCA") ∧
    (annotateElement b n e).typePsets = e.typePsets :=
  ⟨annotate_idem b n b' n' e,
   fun h => annotate_untouched b n e _ h (Or.inl rfl),
   fun h => annotate_untouched b n e _ h (Or.inr rfl),
   annotate_typePsets b n e⟩

/-- Closed instance of C2 at an element already carrying both analysis sets. -/
theorem claim_C2_witness :
    annotateElement "b2" "n2" (annotateElement "b1" "n1"
        (mkElem "E1" [Pset.mk "G55_Prosjektinfo" [("Status", some (Value.vStr "Analyse"))],
                      Pset.mk "G55_LCA" [("Gjenbruksstatus", some (Value.vStr "NY"))]] []))
      = annotateElement "b1" "n1"
          (mkElem "E1" [Pset.mk "G55_Prosjektinfo" [("Status", some (Value.vStr "Analyse"))],
                        Pset.mk "G55_LCA" [("Gjenbruksstatus", some (Value.vStr "NY"))]] []) ∧
    ("G55_Prosjektinfo" ∈ psetNames
        (mkElem "E1" [Pset.mk "G55_Prosjektinfo" [("Status", some (Value.vStr "Analyse"))],
                      Pset.mk "G55_LCA" [("Gjenbruksstatus", some (Value.vStr "NY"))]] []) →
      ownPsetsNamed (annotateElement "b2" "n2"
          (mkElem "E1" [Pset.mk "G55_Prosjektinfo" [("Status", some (Value.vStr "Analyse"))],
                        Pset.mk "G55_LCA" [("Gjenbruksstatus", some (Value.vStr "NY"))]] []))
          "G55_Prosjektinfo"
        = ownPsetsNamed
            (mkElem "E1" [Pset.mk "G55_Prosjektinfo" [("Status", some (Value.vStr "Analyse"))],
                          Pset.mk "G55_LCA" [("Gjenbruksstatus", some (Value.vStr "NY"))]] [])
            "G55_Prosjektinfo") ∧
    ("G55_LCA" ∈ psetNames
        (mkElem "E1" [Pset.mk "G55_Prosjektinfo" [("Status", some (Value.vStr "Analyse"))],
                      Pset.mk "G55_LCA" [("Gjenbruksstatus", some (Value.vStr "NY"))]] []) →
      ownPsetsNamed (annotateElement "b2" "n2"
          (mkElem "E1" [Pset.mk "G55_Prosjektinfo" [("Status", some (Value.vStr "Analyse"))],
                        Pset.mk "G55_LCA" [("Gjenbruksstatus", some (Value.vStr "NY"))]] []))
          "G55_LCA"
        = ownPsetsNamed
            (mkElem "E1" [Pset.mk "G55_Prosjektinfo" [("Status", some (Value.vStr "Analyse"))],
                          Pset.mk "G55_LCA" [("Gjenbruksstatus", some (Value.vStr "NY"))]] [])
            "G55_LCA") ∧
    (annotateElement "b2" "n2"
        (mkElem "E1" [Pset.mk "G55_Prosjektinfo" [("Status", some (Value.vStr "Analyse"))],
                      Pset.mk "G55_LCA" [("Gjenbruksstatus", some (Value.vStr "NY"))]] [])).typePsets
      = (mkElem "E1" [Pset.mk "G55_Prosjektinfo" [("Status", some (Value.vStr "Analyse"))],
                      Pset.mk "G55_LCA" [("Gjenbruksstatus", some (Value.vStr "NY"))]] []).typePsets :=
  claim_C2 "b2" "n2" "b1" "n1"
    (mkElem "E1" [Pset.mk "G55_Prosjektinfo" [("Status", some (Value.vStr "Analyse"))],
                  Pset.mk "G55_LCA" [("Gjenbruksstatus", some (Value.vStr "NY"))]] [])

theorem newAnnotKeys_shape (k : String) (hk : k ∈ newAnnotKeys) :
    ∃ N r : String, ('.' ∉ N.data) ∧ ('.' ∉ r.data) ∧ k = N ++ "." ++ r ∧
      (N = "G55_Prosjektinfo" ∨ N = "G55_LCA") := by
  fin_cases hk
  · exact ⟨"G55_Prosjektinfo", "Prosjekt", by decide, by decide, rfl, Or.inl rfl⟩
  · exact ⟨"G55_Prosjektinfo", "Opprettet", by decide, by decide, rfl, Or.inl rfl⟩
  · exact ⟨"G55_Prosjektinfo", "Status", by decide, by decide, rfl, Or.inl rfl⟩
  · exact ⟨"G55_LCA", "External_ID", by decide, by decide, rfl, Or.inr rfl⟩
  · exact ⟨"G55_LCA", "Basert_på_IFC", by decide, by decide, rfl, Or.inr rfl⟩
  · exact ⟨"G55_LCA", "Original_MMI", by decide, by decide, rfl, Or.inr rfl⟩
  · exact ⟨"G55_LCA", "Gjenbruksstatus", by decide, by decide, rfl, Or.inr rfl⟩
  · exact ⟨"G55_LCA", "LCA_Status", by decide, by decide, rfl, Or.inr rfl⟩
  · exact ⟨"G55_LCA", "CO2_kg", by decide, by decide, rfl, Or.inr rfl⟩
  · exact ⟨"G55_LCA", "LCA_Method", by decide, by decide, rfl, Or.inr rfl⟩
  · exact ⟨"G55_LCA", "Notes", by decide, by decide, rfl, Or.inr rfl⟩

/-- C3: annotation round-trip identity.  For an element carrying neither
analysis set, every flattened key present before annotation keeps its value
after it, and the flattened key set afterwards is exactly the old keys plus
the eleven `newAnnotKeys`. -/
theorem claim_C3 (b n : String) (e : Element)
    (h1 : "G55_Prosjektinfo" ∉ psetNames e) (h2 : "G55_LCA" ∉ psetNames e) :
    (∀ k, k ∈ (flatten e).map Prod.fst →
      dictLookupV (flatten (annotateElement b n e)) k = dictLookupV (flatten e) k) ∧
    (∀ k, k ∈ (flatten (annotateElement b n e)).map Prod.fst ↔
      (k ∈ (flatten e).map Prod.fst ∨ k ∈ newAnnotKeys)) := by
  have hflat : flatten (annotateElement b n e)
      = flatten e ++ flattenPairs
          [("G55_Prosjektinfo", (pinfoPset n).props),
           ("G55_LCA", (lcaPset b (scanOriginalMMI (getPsets e)) e.globalId).props)] := by
    unfold flatten
    rw [getPsets_annotate_fresh b n e h1 h2, flattenPairs_append]
  have hkeys : (flattenPairs
      [("G55_Prosjektinfo", (pinfoPset n).props),
       ("G55_LCA", (lcaPset b (scanOriginalMMI (getPsets e)) e.globalId).props)]).map Prod.fst
      = newAnnotKeys := rfl
  have hdisj : ∀ k, k ∈ (flatten e).map Prod.fst → k ∈ newAnnotKeys → False := by
    intro k hk hnew
    obtain ⟨N, r, hNd, hrd, rfl, hNcase⟩ := newAnnotKeys_shape k hnew
    rw [List.mem_map] at hk
    obtain ⟨kv, hkv, hfst⟩ := hk
    rw [show flatten e = flattenPairs (getPsets e) from rfl, mem_flattenPairs] at hkv
    obtain ⟨pn, props, q, v, hpn, hq, rfl⟩ := hkv
    have heq : pn ++ "." ++ q = N ++ "." ++ r := hfst
    obtain ⟨rfl, -⟩ := string_dot_inj pn q N r hNd hrd heq
    have hpnmem : pn ∈ psetNames e := List.mem_map_of_mem Prod.fst hpn
    rcases hNcase with h | h
    · exact h1 (h ▸ hpnmem)
    · exact h2 (h ▸ hpnmem)
  constructor
  · intro k hk
    rw [hflat]
    exact dictLookupV_append_of_nomem _ _ _ (fun hc => hdisj k hk (hkeys ▸ hc))
  · intro k
    rw [hflat, List.map_append, List.mem_append, hkeys]

/-- Closed instance of C3 at an element with one pre-existing set. -/
theorem claim_C3_witness :
    (∀ k, k ∈ (flatten (mkElem "1A2B"
        [Pset.mk "Pset_Wall" [("MMI", some (Value.vStr "300")), ("X", none)]] [])).map Prod.fst →
      dictLookupV (flatten (annotateElement "base" "now" (mkElem "1A2B"
        [Pset.mk "Pset_Wall" [("MMI", some (Value.vStr "300")), ("X", none)]] []))) k
        = dictLookupV (flatten (mkElem "1A2B"
            [Pset.mk "Pset_Wall" [("MMI", some (Value.vStr "300")), ("X", none)]] [])) k) ∧
    (∀ k, k ∈ (flatten (annotateElement "base" "now" (mkElem "1A2B"
        [Pset.mk "Pset_Wall" [("MMI", some (Value.vStr "300")), ("X", none)]] []))).map Prod.fst ↔
      (k ∈ (flatten (mkElem "1A2B"
          [Pset.mk "Pset_Wall" [("MMI", some (Value.vStr "300")), ("X", none)]] [])).map Prod.fst ∨
        k ∈ newAnnotKeys)) :=
  claim_C3 "base" "now"
    (mkElem "1A2B" [Pset.mk "Pset_Wall" [("MMI", some (Value.vStr "300")), ("X", none)]] [])
    (by decide) (by decide)

theorem syncCell_underscore (e : Element) (col : String) (v : Value)
    (hu : underscoreLead col = true) : syncCell e col (some v) = e := by
  simp [syncCell, hu]

theorem applyRow_filter (cs : List (String × Option Value)) : ∀ e : Element,
    cs.foldl (fun acc kv => syncCell acc kv.1 kv.2) e
      = (cs.filter (fun kv =>
            decide ('.' ∈ kv.1.data) && kv.2.isSome && !(underscoreLead kv.1))).foldl
          (fun acc kv =>
            writeProp acc (rsplitDot kv.1).1 (rsplitDot kv.1).2
              ((kv.2.getD (Value.vStr "")).toStr)) e := by
  induction cs with
  | nil => intro e; rfl
  | cons kv rest ih =>
    intro e
    rw [List.foldl_cons]
    obtain ⟨col, cell⟩ := kv
    cases cell with
    | none =>
      rw [show syncCell e col none = e from rfl]
      rw [show (((col, (none : Option Value)) :: rest).filter (fun kv =>
            decide ('.' ∈ kv.1.data) && kv.2.isSome && !(underscoreLead kv.1)))
          = rest.filter (fun kv =>
            decide ('.' ∈ kv.1.data) && kv.2.isSome && !(underscoreLead kv.1)) from by
        simp [List.filter_cons]]
      exact ih e
    | some v =>
      by_cases hd : '.' ∈ col.data
      · cases hu : underscoreLead col with
        | false =>
          rw [syncCell_write e col v hd hu]
          rw [show (((col, some v) :: rest).filter (fun kv =>
                decide ('.' ∈ kv.1.data) && kv.2.isSome && !(underscoreLead kv.1)))
              = (col, some v) :: rest.filter (fun kv =>
                decide ('.' ∈ kv.1.data) && kv.2.isSome && !(underscoreLead kv.1)) from by
            simp [List.filter_cons, hd, hu]]
          rw [List.foldl_cons]
          exact ih _
        | true =>
          rw [syncCell_underscore e col v hu]
          rw [show (((col, some v) :: rest).filter (fun kv =>
                decide ('.' ∈ kv.1.data) && kv.2.isSome && !(underscoreLead kv.1)))
              = rest.filter (fun kv =>
                decide ('.' ∈ kv.1.data) && kv.2.isSome && !(underscoreLead kv.1)) from by
            simp [List.filter_cons, hu]]
          exact ih e
      · rw [syncCell_nodot e col v hd]
        rw [show (((col, some v) :: rest).filter (fun kv =>
              decide ('.' ∈ kv.1.data) && kv.2.isSome && !(underscoreLead kv.1)))
            = rest.filter (fun kv =>
              decide ('.' ∈ kv.1.data) && kv.2.isSome && !(underscoreLead kv.1)) from by
          simp [List.filter_cons, hd]]
        exact ih e

/-- C5: sync column selection and parsing.  The column loop of one row is the
fold, over exactly those cells whose column name contains a dot, whose value
is present, and whose name does not start with an underscore, of the guarded
write at the last-dot split of the column name with the stringified cell
value; and the split returned by `rsplit(".", 1)` is the split at the last
dot: the column is the concatenation `s ++ "." ++ p` with `p` dot-free. -/
theorem claim_C5 (e : Element) (r : Row) :
    applyRow e r
      = (r.cells.filter (fun kv =>
            decide ('.' ∈ kv.1.data) && kv.2.isSome && !(underscoreLead kv.1))).foldl
          (fun acc kv =>
            writeProp acc (rsplitDot kv.1).1 (rsplitDot kv.1).2
              ((kv.2.getD (Value.vStr "")).toStr)) e ∧
    (∀ col s p, '.' ∈ col.data → rsplitDot col = (s, p) →
      col = s ++ "." ++ p ∧ '.' ∉ p.data) :=
  ⟨applyRow_filter r.cells e, fun col s p hd hsp => rsplitDot_spec col s p hd hsp⟩

/-- C9: flattener contract.  Every entry of the flattening of an element is
`("{SetName}.{PropertyName}", value)` for some attached property, with a
`None` value represented as the empty string; a `None`-valued property is
never omitted (its key appears, mapped to the empty string); and an element
with no property sets flattens to the empty mapping. -/
theorem claim_C9 (e : Element) :
    (∀ kv ∈ flatten e, ∃ pn props q v, (pn, props) ∈ getPsets e ∧ (q, v) ∈ props ∧
      kv = (pn ++ "." ++ q, v.getD (Value.vStr ""))) ∧
    (∀ pn props q, (pn, props) ∈ getPsets e → (q, (none : Option Value)) ∈ props →
      (pn ++ "." ++ q, Value.vStr "") ∈ flatten e) ∧
    (e.typePsets = [] → e.ownPsets = [] → flatten e = []) := by
  refine ⟨?_, ?_, ?_⟩
  · intro kv hkv
    exact (mem_flattenPairs _ kv).1 hkv
  · intro pn props q hmem hq
    exact (mem_flattenPairs _ _).2 ⟨pn, props, q, none, hmem, hq, rfl⟩
  · intro ht ho
    unfold flatten getPsets
    rw [ht, ho]
    rfl

/-- C8: column union correctness.  Every flattened key of every element in
the batch is a column of the produced table; every column either is one of
the two metadata columns or arises from some element's row; the table holds
one row per element, each extended with the same metadata cells; and reading
a column absent from a row's dict yields the empty (NaN) cell. -/
theorem claim_C8 (es : List Element) (src date : String) :
    (∀ e ∈ es, ∀ k ∈ (buildRowDict e).map Prod.fst,
      k ∈ (extract_ifc_to_excel es src date).cols) ∧
    (∀ c ∈ (extract_ifc_to_excel es src date).cols,
      c = "_source_file" ∨ c = "_extract_date" ∨
        ∃ e ∈ es, c ∈ (buildRowDict e).map Prod.fst) ∧
    ((extract_ifc_to_excel es src date).rows
      = es.map (fun e => buildRowDict e ++
          [("_source_file", some (Value.vStr src)),
           ("_extract_date", some (Value.vStr date))])) ∧
    (∀ row ∈ (extract_ifc_to_excel es src date).rows, ∀ c,
      c ∉ row.map Prod.fst → dictGet row c = none) := by
  refine ⟨?_, ?_, ?_, ?_⟩
  · intro e he k hk
    show k ∈ dfColumns [] (es.map buildRowDict) ++ ["_source_file", "_extract_date"]
    refine List.mem_append.2 (Or.inl ?_)
    exact (mem_dfColumns _ _ _).2 (Or.inr ⟨buildRowDict e, List.mem_map_of_mem _ he, hk⟩)
  · intro c hc
    rcases List.mem_append.1 hc with hc | hc
    · rcases (mem_dfColumns _ _ _).1 hc with hc | ⟨r, hr, hcr⟩
      · exact absurd hc (List.not_mem_nil c)
      · obtain ⟨e, he, rfl⟩ := List.mem_map.1 hr
        exact Or.inr (Or.inr ⟨e, he, hcr⟩)
    · rcases List.mem_cons.1 hc with rfl | hc
      · exact Or.inl rfl
      · rcases List.mem_cons.1 hc with rfl | hc
        · exact Or.inr (Or.inl rfl)
        · exact absurd hc (List.not_mem_nil c)
  · show (es.map buildRowDict).map _ = _
    rw [List.map_map]
    rfl
  · intro row _ c hcrow
    exact dictGet_of_nomem row c hcrow

/-- Counterexample to C7 as stated: on an element that does not carry
`G55_LCA`, the general sync creates the set while the fast path does nothing,
so the two entry points produce different models. -/
theorem claim_C7_cex :
    (update_ifc_from_dataframe
        [{ cells := [("GUID", some (Value.vStr "E1")),
                     ("G55_LCA.Gjenbruksstatus", some (Value.vStr "GJEN"))] }]
        (Model.mk [mkElem "E1" [] []])).model
      ≠ (sync_excel_to_ifc
          [{ cells := [("GUID", some (Value.vStr "E1")),
                       ("G55_LCA.Gjenbruksstatus", some (Value.vStr "GJEN"))] }]
          (Model.mk [mkElem "E1" [] []])).model := by
  decide

theorem syncCell_GUID_any (x : Element) (c : Option Value) : syncCell x "GUID" c = x := by
  cases c with
  | none => rfl
  | some v => exact syncCell_nodot x _ _ (by decide)

theorem fastStep_syncStep_models (rows : List Row) : ∀ (m : Model) (c1 c2 : Nat),
    (∀ r ∈ rows, ∃ a b : Option Value,
      r.cells = [("GUID", a), ("G55_LCA.Gjenbruksstatus", b)]) →
    (∀ e ∈ m.elements, "G55_LCA" ∈ psetNames e) →
    (rows.foldl fastStep (c1, m)).2 = (rows.foldl syncStep (c2, m)).2 := by
  induction rows with
  | nil => intro m c1 c2 _ _; rfl
  | cons r rest ih =>
    intro m c1 c2 hshape hlca
    have hshape_rest : ∀ r' ∈ rest, ∃ a b : Option Value,
        r'.cells = [("GUID", a), ("G55_LCA.Gjenbruksstatus", b)] :=
      fun r' hr' => hshape r' (List.mem_cons_of_mem r hr')
    obtain ⟨ca, cb, hcells⟩ := hshape r (List.mem_cons_self r rest)
    have hgb : dictGet r.cells "G55_LCA.Gjenbruksstatus" = cb := by rw [hcells]; rfl
    have happly : ∀ x : Element, applyRow x r = syncCell x "G55_LCA.Gjenbruksstatus" cb := by
      intro x
      calc applyRow x r = syncCell (syncCell x "GUID" ca) "G55_LCA.Gjenbruksstatus" cb := by
            rw [applyRow, hcells]
            rfl
        _ = syncCell x "G55_LCA.Gjenbruksstatus" cb := by rw [syncCell_GUID_any]
    rw [List.foldl_cons, List.foldl_cons]
    cases hrow : rowGuid r with
    | none =>
      rw [show fastStep (c1, m) r = (c1, m) from by simp [fastStep, hrow],
          show syncStep (c2, m) r = (c2, m) from by simp [syncStep, hrow]]
      exact ih m c1 c2 hshape_rest hlca
    | some g =>
      cases hfind : byGuid m g with
      | none =>
        rw [show fastStep (c1, m) r = (c1, m) from by simp [fastStep, hrow, hfind],
            show syncStep (c2, m) r = (c2, m) from by simp [syncStep, hrow, hfind]]
        exact ih m c1 c2 hshape_rest hlca
      | some e =>
        have hl : "G55_LCA" ∈ psetNames e := hlca e (List.mem_of_find?_eq_some hfind)
        obtain ⟨pre, post, hdecomp, -, hupd⟩ := find?_guid_decomp m.elements g e hfind
        have hmem_pre : ∀ x ∈ pre, x ∈ m.elements := by
          intro x hx
          rw [hdecomp]
          exact List.mem_append.2 (Or.inl hx)
        have hmem_post : ∀ x ∈ post, x ∈ m.elements := by
          intro x hx
          rw [hdecomp]
          exact List.mem_append.2 (Or.inr (List.mem_cons_of_mem e hx))
        by_cases hx : ∃ p ∈ e.ownPsets, p.name = "G55_LCA"
        · cases cb with
          | none =>
            have happly_id : ∀ x : Element, applyRow x r = x := by
              intro x
              rw [happly]
              rfl
            rw [show fastStep (c1, m) r = (c1, m) from by
                  simp [fastStep, hrow, hfind, hl, hx, hgb],
                show syncStep (c2, m) r = (c2 + 1, m) from by
                  simp only [syncStep, hrow, hfind]
                  rw [updateFirst_id _ _ _ happly_id]]
            exact ih m c1 (c2 + 1) hshape_rest hlca
          | some v =>
            have hwrite : ∀ x : Element,
                applyRow x r = writeProp x "G55_LCA" "Gjenbruksstatus" v.toStr := by
              intro x
              rw [happly, syncCell_write x _ v (by decide) (by decide)]
              rfl
            have hedit := writeProp_edit e "G55_LCA" "Gjenbruksstatus" v.toStr hl hx
            rw [show fastStep (c1, m) r
                  = (c1 + 1, { elements := updateFirst m.elements g (fun x =>
                      { x with ownPsets :=
                          editPsetFirst x.ownPsets "G55_LCA" [("Gjenbruksstatus", v.toStr)] }) })
                from by simp [fastStep, hrow, hfind, hl, hx, hgb],
                show syncStep (c2, m) r
                  = (c2 + 1, { elements := updateFirst m.elements g (fun x => applyRow x r) })
                from by simp [syncStep, hrow, hfind]]
            have hsame : updateFirst m.elements g (fun x =>
                  { x with ownPsets :=
                      editPsetFirst x.ownPsets "G55_LCA" [("Gjenbruksstatus", v.toStr)] })
                = updateFirst m.elements g (fun x => applyRow x r) := by
              rw [hupd, hupd, hwrite e, hedit]
            rw [hsame]
            refine ih _ (c1 + 1) (c2 + 1) hshape_rest ?_
            intro x hxmem
            have hxmem' : x ∈ updateFirst m.elements g (fun x => applyRow x r) := hxmem
            rw [hupd, hwrite e, hedit] at hxmem'
            rcases List.mem_append.1 hxmem' with hmem | hmem
            · exact hlca x (hmem_pre x hmem)
            · rcases List.mem_cons.1 hmem with rfl | hmem
              · rw [psetNames_editOwn]
                exact hl
              · exact hlca x (hmem_post x hmem)
        · have happly_e : applyRow e r = e := by
            cases cb with
            | none =>
              rw [happly]
              rfl
            | some v =>
              rw [happly, syncCell_write e _ v (by decide) (by decide)]
              exact writeProp_skip e _ _ _ hl hx
          rw [show fastStep (c1, m) r = (c1, m) from by
                simp [fastStep, hrow, hfind, hl, hx],
              show syncStep (c2, m) r = (c2 + 1, m) from by
                simp only [syncStep, hrow, hfind]
                rw [hupd, happly_e, ← hdecomp]]
          exact ih m c1 (c2 + 1) hshape_rest hlca

/-- C7 (amended): the fast-path entry point agrees with the general sync on
tables holding exactly the guid column and the `G55_LCA.Gjenbruksstatus`
column, provided every element of the model already reports a `G55_LCA` set
(as every element of an annotated model does); without that proviso the two
differ, since the fast path never creates the missing set
(see the counterexample). -/
theorem claim_C7 (rows : List Row) (m : Model)
    (hshape : ∀ r ∈ rows, ∃ a b : Option Value,
      r.cells = [("GUID", a), ("G55_LCA.Gjenbruksstatus", b)])
    (hlca : ∀ e ∈ m.elements, "G55_LCA" ∈ psetNames e) :
    (update_ifc_from_dataframe rows m).model = (sync_excel_to_ifc rows m).model :=
  fastStep_syncStep_models rows m 0 0 hshape hlca

/-- Closed instance of C7 (amended) on an annotated one-element model. -/
theorem claim_C7_witness :
    (update_ifc_from_dataframe
        [{ cells := [("GUID", some (Value.vStr "E1")),
                     ("G55_LCA.Gjenbruksstatus", some (Value.vStr "GJEN"))] }]
        (Model.mk [mkElem "E1"
          [Pset.mk "G55_LCA" [("Gjenbruksstatus", some (Value.vStr "NY"))]] []])).model
      = (sync_excel_to_ifc
          [{ cells := [("GUID", some (Value.vStr "E1")),
                       ("G55_LCA.Gjenbruksstatus", some (Value.vStr "GJEN"))] }]
          (Model.mk [mkElem "E1"
            [Pset.mk "G55_LCA" [("Gjenbruksstatus", some (Value.vStr "NY"))]] []])).model :=
  claim_C7
    [{ cells := [("GUID", some (Value.vStr "E1")),
                 ("G55_LCA.Gjenbruksstatus", some (Value.vStr "GJEN"))] }]
    (Model.mk [mkElem "E1"
      [Pset.mk "G55_LCA" [("Gjenbruksstatus", some (Value.vStr "NY"))]] []])
    (by
      intro r hr
      rw [List.mem_singleton] at hr
      subst hr
      exact ⟨some (Value.vStr "E1"), some (Value.vStr "GJEN"), rfl⟩)
    (by decide)
